import Mathlib

/-!
Shallow embedding of the gotablestats core (package `internal/stats` and the
`processFile` dispatcher of package `cmd`) and verification of its
specification claims.

Conventions of the embedding:
* Go `float64` values are modelled as exact rationals (`ℚ`); `math.Sqrt` is the
  real square root, so standard-deviation values live in `ℝ`.
* Go `int`/`int64` are modelled as `ℤ` (`Int.tdiv` is Go's truncated `/`).
* File I/O is modelled by passing the already-parsed CSV records (the
  `encoding/csv` layer itself is outside the model: a file is a list of
  records, the first record being the header) together with the file size and,
  for the sampling path, the outcome of each sampling-loop iteration.
* A Go runtime panic (failed type assertion, nil-pointer dereference) is
  modelled by `Option`/`none`.
-/

namespace GoTableStats

/-! ### Basic string helpers -/

/-- Characters treated as surrounding whitespace by `strings.TrimSpace`
(modelled for the ASCII range: space, tab, newline, vertical tab, form feed,
carriage return). -/
def isSpaceChar (c : Char) : Bool :=
  c = ' ' || c = '\t' || c = '\n' || c = '\x0b' || c = '\x0c' || c = '\r'

/-- Models `strings.TrimSpace` (ASCII whitespace). -/
def trimSpace (s : String) : String :=
  String.mk (((s.data.dropWhile isSpaceChar).reverse.dropWhile isSpaceChar).reverse)

/-- Models `strings.ToLower` restricted to ASCII letters. -/
def toLowerAscii (s : String) : String :=
  String.mk (s.data.map fun c =>
    if 'A' ≤ c ∧ c ≤ 'Z' then Char.ofNat (c.toNat + 32) else c)

/-- Models `filepath.Ext`: the suffix of the final path element starting at its
final dot, or `""` when the final element has no dot. -/
def filepathExt (path : String) : String :=
  let revName := path.data.reverse.takeWhile (fun c => c ≠ '/')
  let afterDot := revName.takeWhile (fun c => c ≠ '.')
  if afterDot.length = revName.length then ""
  else String.mk ((afterDot ++ ['.']).reverse)

/-! ### A model of `strconv.ParseFloat`

Models the plain decimal forms accepted by `strconv.ParseFloat(s, 64)`:
an optional sign, a mantissa made of digits with at most one decimal point
(at least one digit overall), and an optional `e`/`E` exponent.  The value is
kept exact in `ℚ`.  Hexadecimal floats, `Inf`/`NaN` spellings, digit-group
underscores and float64 overflow/rounding are outside the model. -/

/-- Numeric value of a list of decimal digit characters. -/
def digitsVal (cs : List Char) : ℕ :=
  cs.foldl (fun a c => a * 10 + (c.toNat - '0'.toNat)) 0

/-- Parses an unsigned decimal mantissa (digits, optional single point);
returns its value and the unconsumed remainder. -/
def parseMantissa (cs : List Char) : Option (ℚ × List Char) :=
  let ip := cs.takeWhile Char.isDigit
  let rest := cs.dropWhile Char.isDigit
  match rest with
  | '.' :: rest2 =>
    let fp := rest2.takeWhile Char.isDigit
    let rest3 := rest2.dropWhile Char.isDigit
    if ip.isEmpty && fp.isEmpty then none
    else some ((digitsVal ip : ℚ) + (digitsVal fp : ℚ) / (10 : ℚ) ^ fp.length, rest3)
  | _ => if ip.isEmpty then none else some ((digitsVal ip : ℚ), rest)

/-- Parses an optional trailing exponent part, returning the scale factor it
denotes; fails if the remainder is nonempty but not a well-formed exponent. -/
def parseExpPart (cs : List Char) : Option ℚ :=
  match cs with
  | [] => some 1
  | c :: rest =>
    if c = 'e' ∨ c = 'E' then
      let (eneg, rest2) : Bool × List Char :=
        match rest with
        | '+' :: t => (false, t)
        | '-' :: t => (true, t)
        | t => (false, t)
      let ed := rest2.takeWhile Char.isDigit
      let rest3 := rest2.dropWhile Char.isDigit
      if ed.isEmpty || !rest3.isEmpty then none
      else if eneg then some (1 / (10 : ℚ) ^ digitsVal ed)
      else some ((10 : ℚ) ^ digitsVal ed)
    else none

/-- Models `strconv.ParseFloat(s, 64)` on plain decimal input; `none` is the
error result. -/
def parseFloat (s : String) : Option ℚ :=
  let cs := s.data
  let (sgn, cs1) : ℚ × List Char :=
    match cs with
    | '+' :: t => (1, t)
    | '-' :: t => (-1, t)
    | t => (1, t)
  match parseMantissa cs1 with
  | none => none
  | some (m, rest) =>
    match parseExpPart rest with
    | none => none
    | some e => some (sgn * m * e)

/-! ### Dynamic min/max values and `toStringComparable` -/

/-- The dynamic (`interface{}`) values stored in `minVal`/`maxVal`: either a
parsed `float64` or a raw field string.  (These are the only two cases the
program ever stores, which is also why `toStringComparable`'s `default` panic
branch has no counterpart here.) -/
inductive Value where
  | vfloat (q : ℚ)
  | vstr (s : String)
deriving DecidableEq

/-- Decimal digit character (for `n ≤ 9`). -/
def digitChar10 (n : ℕ) : Char := Char.ofNat ('0'.toNat + n)

/-- Worker for `natDigits`; the first argument is recursion fuel (any value
at least the number of digits works). -/
def natDigitsAux : ℕ → ℕ → List Char
  | 0, n => [digitChar10 (n % 10)]
  | fuel + 1, n =>
    if n < 10 then [digitChar10 n]
    else natDigitsAux fuel (n / 10) ++ [digitChar10 (n % 10)]

/-- The decimal digits of a natural number, most significant first. -/
def natDigits (n : ℕ) : List Char := natDigitsAux n n

/-- Left-pad a character list with zeros to width `w`. -/
def padZeros (w : ℕ) (cs : List Char) : List Char :=
  List.replicate (w - cs.length) '0' ++ cs

/-- Models `fmt.Sprintf("%020.6f", q)`: the value rounded to six decimal
places, printed with exactly six fraction digits and left-padded with zeros to
a minimum total width of 20 characters (sign included for negatives).  The
model rounds ties up; `fmt` rounds the exact binary double to nearest. -/
def formatFloat20x6 (q : ℚ) : String :=
  if q < 0 then
    let n := (⌊(-q) * 1000000 + 1/2⌋).toNat
    String.mk ('-' :: padZeros 19 (natDigits (n / 1000000) ++ '.' :: padZeros 6 (natDigits (n % 1000000))))
  else
    let n := (⌊q * 1000000 + 1/2⌋).toNat
    String.mk (padZeros 20 (natDigits (n / 1000000) ++ '.' :: padZeros 6 (natDigits (n % 1000000))))

/-- Models `toStringComparable` from `internal/stats`: strings pass through,
numeric bounds are rendered with `%020.6f`. -/
def toStringComparable : Value → String
  | .vstr s => s
  | .vfloat q => formatFloat20x6 q

/-! ### `analyzeColumn`

The per-column loop of `(*CSVReader).analyzeColumn`.  The Go code mutates
local variables while ranging over `records`; here that local state is the
structure `ColState` and each loop iteration is `analyzeStep`.  The two Go
type assertions `minVal.(float64)` / `minVal.(string)` (and the `maxVal`
twins) can panic at runtime; a panic is modelled as `none`. -/

/-- Tests the null tokens of `analyzeColumn` (after trimming): empty, `NULL`
or `null`, case-sensitively. -/
def isNullValue (v : String) : Bool :=
  v = "" || v = "NULL" || v = "null"

/-- The mutable locals of one `analyzeColumn` call. -/
structure ColState where
  nullCount : ℕ
  minVal : Option Value
  maxVal : Option Value
  isNumeric : Bool
  isFloat : Bool
  numericValues : List ℚ
deriving DecidableEq

/-- Initial `analyzeColumn` state (`isNumeric` starts `true`). -/
def initColState : ColState :=
  { nullCount := 0, minVal := none, maxVal := none,
    isNumeric := true, isFloat := false, numericValues := [] }

/-- `if minVal == nil || floatVal < minVal.(float64) { minVal = floatVal }`:
the assertion panics (`none`) if a string is stored. -/
def numericUpdateMin (b : Option Value) (f : ℚ) : Option (Option Value) :=
  match b with
  | none => some (some (.vfloat f))
  | some (.vfloat m) => some (some (.vfloat (if f < m then f else m)))
  | some (.vstr _) => none

/-- `if maxVal == nil || floatVal > maxVal.(float64) { maxVal = floatVal }`. -/
def numericUpdateMax (b : Option Value) (f : ℚ) : Option (Option Value) :=
  match b with
  | none => some (some (.vfloat f))
  | some (.vfloat m) => some (some (.vfloat (if m < f then f else m)))
  | some (.vstr _) => none

/-- Min update at the numeric→string flip:
`if minVal == nil || value < toStringComparable(minVal) { minVal = value }`. -/
def flipUpdateMin (b : Option Value) (value : String) : Option Value :=
  match b with
  | none => some (.vstr value)
  | some b' => if value < toStringComparable b' then some (.vstr value) else some b'

/-- Max update at the numeric→string flip:
`if maxVal == nil || value > toStringComparable(maxVal) { maxVal = value }`. -/
def flipUpdateMax (b : Option Value) (value : String) : Option Value :=
  match b with
  | none => some (.vstr value)
  | some b' => if toStringComparable b' < value then some (.vstr value) else some b'

/-- String-branch min update:
`if minVal == nil || value < minVal.(string) { minVal = value }`; the
assertion panics (`none`) if a numeric bound is still stored. -/
def stringUpdateMin (b : Option Value) (value : String) : Option (Option Value) :=
  match b with
  | none => some (some (.vstr value))
  | some (.vstr s) => some (some (.vstr (if value < s then value else s)))
  | some (.vfloat _) => none

/-- String-branch max update:
`if maxVal == nil || value > maxVal.(string) { maxVal = value }`. -/
def stringUpdateMax (b : Option Value) (value : String) : Option (Option Value) :=
  match b with
  | none => some (some (.vstr value))
  | some (.vstr s) => some (some (.vstr (if s < value then value else s)))
  | some (.vfloat _) => none

/-- One iteration of the `for _, record := range records` loop of
`analyzeColumn`. -/
def analyzeStep (colIdx : ℕ) (st : ColState) (record : List String) : Option ColState :=
  if record.length ≤ colIdx then
    some { st with nullCount := st.nullCount + 1 }
  else
    let value := trimSpace (record.getD colIdx "")
    if isNullValue value then
      some { st with nullCount := st.nullCount + 1 }
    else if st.isNumeric then
      match parseFloat value with
      | some floatVal =>
        match numericUpdateMin st.minVal floatVal, numericUpdateMax st.maxVal floatVal with
        | some mn, some mx =>
          some { st with
                 numericValues := st.numericValues ++ [floatVal],
                 isFloat := st.isFloat || value.data.contains '.',
                 minVal := mn, maxVal := mx }
        | _, _ => none
      | none =>
        some { st with
               isNumeric := false, isFloat := false, numericValues := [],
               minVal := flipUpdateMin st.minVal value,
               maxVal := flipUpdateMax st.maxVal value }
    else
      match stringUpdateMin st.minVal value with
      | none => none
      | some mn =>
        match stringUpdateMax st.maxVal value with
        | none => none
        | some mx => some { st with minVal := mn, maxVal := mx }

/-- The whole record loop of `analyzeColumn`. -/
def analyzeLoop (colIdx : ℕ) (st : ColState) : List (List String) → Option ColState
  | [] => some st
  | record :: rest =>
    match analyzeStep colIdx st record with
    | none => none
    | some st' => analyzeLoop colIdx st' rest

/-! ### Aggregate calculator (`calculateAggregates`, `calculatePercentile`) -/

/-- Result of `calculateAggregates`.  The Go structure also stores
`StdDev = math.Sqrt(Variance)`; as the exact real square root is not
computable it is exposed by the separate function `stdDevOf` instead of being
a stored field.  `Percentiles` (Go `map[int]float64`, built over the fixed
rank list) is an association list here. -/
structure AggregateStats where
  count : ℤ
  sum : ℚ
  mean : ℚ
  median : ℚ
  variance : ℚ
  percentiles : List (ℕ × ℚ)
deriving DecidableEq

/-- Association-list lookup with default, modelling Go map indexing. -/
def lookupD (l : List (ℕ × ℚ)) (k : ℕ) (d : ℚ) : ℚ :=
  match l.lookup k with
  | some v => v
  | none => d

/-- Models `calculatePercentile(sortedValues, percentile)`.  `int(index)`
truncates toward zero in Go; the index is nonnegative for the natural-number
ranks used here, so it coincides with the floor.  Out-of-range list reads
(which for ranks beyond 100 would panic in Go) use the default `0`. -/
def calculatePercentile (sortedValues : List ℚ) (percentile : ℕ) : ℚ :=
  if sortedValues.length = 0 then 0
  else
    let index : ℚ := (percentile : ℚ) / 100 * ((sortedValues.length : ℚ) - 1)
    if index = (⌊index⌋ : ℚ) then sortedValues.getD (⌊index⌋).toNat 0
    else
      let lower := (⌊index⌋).toNat
      let upper := (⌈index⌉).toNat
      let weight := index - (⌊index⌋ : ℚ)
      sortedValues.getD lower 0 * (1 - weight) + sortedValues.getD upper 0 * weight

/-- Spec-side form of the percentile computation: linear interpolation of the
sorted sample at a (rational) fractional index.  `calculatePercentile` is
proved equal to it below and monotonicity is established through it. -/
def interpAt (s : List ℚ) (t : ℚ) : ℚ :=
  s.getD (⌊t⌋).toNat 0 * (1 - (t - (⌊t⌋ : ℚ))) + s.getD (⌈t⌉).toNat 0 * (t - (⌊t⌋ : ℚ))

/-- The fixed percentile ranks of `calculateAggregates`. -/
def percentilePoints : List ℕ := [25, 50, 75, 90, 95, 99]

/-- Models `calculateAggregates(values)`.  `sort.Float64s` on a copy is
modelled by `insertionSort` (the sorted permutation of a list is unique, so
the choice of sorting algorithm is observationally irrelevant). -/
def calculateAggregates (values : List ℚ) : AggregateStats :=
  if values.length = 0 then
    { count := 0, sum := 0, mean := 0, median := 0, variance := 0, percentiles := [] }
  else
    let sortedValues := List.insertionSort (· ≤ ·) values
    let count : ℤ := values.length
    let sum : ℚ := values.foldl (· + ·) 0
    let mean : ℚ := sum / (values.length : ℚ)
    let variance : ℚ :=
      (values.foldl (fun acc v => acc + (v - mean) * (v - mean)) 0) / (values.length : ℚ)
    let percentiles := percentilePoints.map fun p => (p, calculatePercentile sortedValues p)
    { count := count, sum := sum, mean := mean,
      median := lookupD percentiles 50 0, variance := variance, percentiles := percentiles }

/-- `StdDev` of `calculateAggregates`: `math.Sqrt(variance)`. -/
noncomputable def stdDevOf (values : List ℚ) : ℝ :=
  Real.sqrt ((calculateAggregates values).variance : ℝ)

/-! ### Per-column result and `analyzeColumn` -/

/-- The entries `analyzeColumn` writes into the `TableStats` maps for one
column (the Go code scatters them over six maps keyed by the column name;
they are gathered into one record here). -/
structure ColResult where
  columnType : String
  nullCount : ℤ
  nullPercentage : ℚ
  minVal : Option Value
  maxVal : Option Value
  aggregates : Option AggregateStats
deriving DecidableEq

/-- Models `analyzeColumn(records, colIdx, ...)`; `none` is a runtime panic
in the loop. -/
def analyzeColumn (records : List (List String)) (colIdx : ℕ) : Option ColResult :=
  (analyzeLoop colIdx initColState records).map fun st =>
    { columnType :=
        if st.isNumeric then (if st.isFloat then "float64" else "int64") else "string",
      nullCount := (st.nullCount : ℤ),
      nullPercentage := (st.nullCount : ℚ) / (records.length : ℚ) * 100,
      minVal := st.minVal,
      maxVal := st.maxVal,
      aggregates :=
        if st.isNumeric ∧ st.numericValues ≠ [] then
          some (calculateAggregates st.numericValues)
        else none }

/-! ### Sampling (`sampleRecords`) and row-count estimation -/

/-- `SamplingConfig`. -/
structure SamplingConfig where
  sampleSize : ℤ
  randomPositions : ℤ
  confidence : ℚ
  maxFileSize : ℤ
deriving DecidableEq

/-- The externally observable I/O outcome of one iteration of the
random-position loop in `sampleRecords`:
* `seekErr` — `file.Seek(randomPos, io.SeekStart)` fails;
* `readErr` — `readFromPosition` returns an error (its initial buffered
  `ReadLine` failed with a non-EOF error);
* `tellErr` — the subsequent `file.Seek(0, io.SeekCurrent)` fails;
* `ok` — the records parsed at this position, with the bytes consumed
  (`current - randomPos`). -/
inductive PosOutcome where
  | seekErr
  | readErr
  | tellErr (records : List (List String))
  | ok (records : List (List String)) (bytes : ℤ)
deriving DecidableEq

/-- Outcomes that do not abort `sampleRecords` (everything except the two
seek failures). -/
def PosOutcome.nonFatal : PosOutcome → Bool
  | .seekErr => false
  | .tellErr _ => false
  | _ => true

/-- The `for i := 0; i < config.RandomPositions; i++` loop body of
`sampleRecords`; one `PosOutcome` per iteration. -/
def sampleLoop (sampleSize : ℤ) (outcomes : List PosOutcome)
    (acc : List (List String)) (readerBytes : ℤ) :
    Except Unit (List (List String) × ℤ) :=
  match outcomes with
  | [] => .ok (acc, readerBytes)
  | .seekErr :: _ => .error ()
  | .readErr :: rest => sampleLoop sampleSize rest acc readerBytes
  | .tellErr _ :: _ => .error ()
  | .ok records bytes :: rest =>
    let acc' := acc ++ records
    let readerBytes' := readerBytes + bytes
    if sampleSize ≤ (acc'.length : ℤ) then .ok (acc', readerBytes')
    else sampleLoop sampleSize rest acc' readerBytes'

/-- Models `sampleRecords`: runs the position loop (over the supplied
per-iteration outcomes, one per random position) and trims the collected
records to `SampleSize`. -/
def sampleRecords (config : SamplingConfig) (outcomes : List PosOutcome) :
    Except Unit (List (List String) × ℤ) :=
  match sampleLoop config.sampleSize outcomes [] 0 with
  | .error e => .error e
  | .ok (allRecords, readerBytes) =>
    if config.sampleSize < (allRecords.length : ℤ) then
      .ok (allRecords.take config.sampleSize.toNat, readerBytes)
    else
      .ok (allRecords, readerBytes)

/-- Models `estimateRowCount` (Go `int64` division is truncated division). -/
def estimateRowCount (fileSize readerBytes : ℤ) (config : SamplingConfig) : ℤ :=
  let avgBytesPerRecord := Int.tdiv readerBytes config.sampleSize
  Int.tdiv fileSize avgBytesPerRecord

/-! ### `ReadTable` -/

/-- The fields of Go's `TableStats` that the model tracks.  The per-column
maps (`ColumnTypes`, `NullCounts`, `NullPercentage`, `MinValues`, `MaxValues`,
`Aggregates`, all keyed by column name) are gathered into the single
name-keyed list `columns`. -/
structure TableStats where
  rowCount : ℤ
  estimatedRows : ℤ
  columnCount : ℕ
  columnNames : List String
  sampleData : List (List String)
  columns : List (String × ColResult)
deriving DecidableEq

/-- The per-column analysis loop of `ReadTable`
(`for colIdx, colName := range stats.ColumnNames`). -/
def analyzeAll (records : List (List String)) (header : List String) :
    Option (List (String × ColResult)) :=
  (header.enum).mapM fun ic => (analyzeColumn records ic.1).map fun r => (ic.2, r)

/-- The tail of `ReadTable` after the records have been obtained: row counts,
sample-data preview, and per-column analysis (`none` models a panic inside
`analyzeColumn`). -/
def finishStats (header : List String) (records : List (List String)) (est : ℤ) :
    Option TableStats :=
  let base : TableStats :=
    { rowCount := (records.length : ℤ), estimatedRows := est,
      columnCount := header.length, columnNames := header,
      sampleData := [], columns := [] }
  if records.length = 0 then some base
  else
    let sampleSize := min 5 records.length
    match analyzeAll records header with
    | none => none
    | some cols =>
      some { base with sampleData := records.take sampleSize, columns := cols }

/-- Models `(*CSVReader).ReadTable`.  The file is given as its parsed records
(header first) plus its size; `outcomes` is the I/O behaviour of the
random-position loop, used only on the large-file path.  `none` covers both a
returned error (unreadable header / failed sampling) and a panic during
column analysis. -/
def readTable (file : List (List String)) (fileSize : ℤ) (config : SamplingConfig)
    (outcomes : List PosOutcome) : Option TableStats :=
  match file with
  | [] => none
  | header :: rest =>
    if fileSize ≤ config.maxFileSize then
      finishStats header rest ((rest.length : ℤ))
    else
      match sampleRecords config outcomes with
      | .error _ => none
      | .ok (records, readerBytes) =>
        finishStats header records (estimateRowCount fileSize readerBytes config)

/-! ### `processFile` (package `cmd`): extension dispatch -/

/-- `stats.CSVReader`. -/
structure CSVReader where
  delimiter : Char
deriving DecidableEq

/-- `stats.TSVReader` embeds a `*CSVReader`; `none` models a nil pointer. -/
structure TSVReader where
  csvReader : Option CSVReader
deriving DecidableEq

/-- `stats.NewTSVReader()` wires the embedded reader with the tab rune. -/
def newTSVReader : TSVReader := ⟨some ⟨'\t'⟩⟩

/-- The reader value `processFile` selects (the `stats.TableReader` interface
narrowed to the two constructible implementations). -/
inductive SelectedReader where
  | csv (r : CSVReader)
  | tsv (r : TSVReader)
deriving DecidableEq

/-- The delimiter a selected reader would parse with: `ReadTable` reads
`r.Delimiter` through the embedded `*CSVReader`, so a nil embedded reader
(`none`) is a nil-pointer dereference — a panic, modelled as `none`. -/
def SelectedReader.readDelimiter : SelectedReader → Option Char
  | .csv r => some r.delimiter
  | .tsv r => r.csvReader.map fun c => c.delimiter

/-- The extension-dispatch `switch` of `processFile` (the preceding
`os.Stat` existence check touches no file contents and is outside the model;
note the `.tsv` arm builds the literal `&stats.TSVReader{}`, whose embedded
`*CSVReader` is nil, not `NewTSVReader()`). -/
def processFileReader (filePath : String) : Except String SelectedReader :=
  let ext := toLowerAscii (filepathExt filePath)
  if ext = ".csv" then .ok (.csv ⟨','⟩)
  else if ext = ".tsv" then .ok (.tsv ⟨none⟩)
  else .error ("cannot auto-detect delimiter for " ++ ext ++ ", unsupported file type")

/-! ### Claim-side predicates

Spec-side characterisations used to state the claims about `analyzeColumn`;
they are deliberately written from the specification's wording (null rule,
parse-failure rule) and then proved to match the loop above. -/

/-- The specification's null rule for the field of `rec` at `colIdx`: the
record is too short for the column, or the trimmed field is empty, `NULL`,
or `null`. -/
def isNullField (colIdx : ℕ) (rec : List String) : Bool :=
  rec.length ≤ colIdx || isNullValue (trimSpace (rec.getD colIdx ""))

/-- The record carries, at `colIdx`, a non-null value that fails the 64-bit
float parse (the event that flips a column to `string`). -/
def failsNumericParse (colIdx : ℕ) (rec : List String) : Prop :=
  colIdx < rec.length ∧
  isNullValue (trimSpace (rec.getD colIdx "")) = false ∧
  parseFloat (trimSpace (rec.getD colIdx "")) = none

instance (colIdx : ℕ) (rec : List String) : Decidable (failsNumericParse colIdx rec) := by
  unfold failsNumericParse; infer_instance

/-! ### Shared evaluation lemmas -/

/-- Rendering of the numeric bound `5.0` with `%020.6f`. -/
theorem formatFloat_five : formatFloat20x6 5 = "0000000000005.000000" := by
  have hneg : ¬ ((5 : ℚ) < 0) := by norm_num
  have hfl : (⌊(5 : ℚ) * 1000000 + 1 / 2⌋) = 5000000 := by norm_num [Int.floor_eq_iff]
  simp only [formatFloat20x6, if_neg hneg, hfl]
  decide

/-- `strconv.ParseFloat` accepts the literal `5`. -/
theorem parseFloat_five : parseFloat "5" = some 5 := by
  have h : parseFloat "5" = some (1 * ((digitsVal ['5'] : ℕ) : ℚ) * 1) := rfl
  have h2 : digitsVal ['5'] = 5 := rfl
  rw [h, h2]; norm_num

/-! ### Claim C8: extension dispatch in `processFile` (code bug) -/

/-- Claim C8, evaluated at the failing input: a `.csv` path selects a comma
reader and an unknown extension is rejected with the "unsupported file type"
error, as claimed; but a `.tsv` path selects the literal `&stats.TSVReader{}`
whose embedded `*CSVReader` is nil, so reading it dereferences a nil pointer
(no delimiter, a panic) instead of parsing with the tab delimiter that
`NewTSVReader` would have supplied. -/
theorem processFile_tsv_nil_reader :
    processFileReader "data.tsv" = .ok (.tsv ⟨none⟩) ∧
    SelectedReader.readDelimiter (.tsv ⟨none⟩) = none ∧
    newTSVReader.csvReader = some ⟨'\t'⟩ ∧
    processFileReader "data.csv" = .ok (.csv ⟨','⟩) ∧
    SelectedReader.readDelimiter (.csv ⟨','⟩) = some ',' ∧
    processFileReader "data.txt"
      = .error "cannot auto-detect delimiter for .txt, unsupported file type" :=
  ⟨rfl, rfl, rfl, rfl, rfl, rfl⟩

/-! ### Claim C9: the string-branch type assertions (code bug) -/

/-- Claim C9, refuted by evaluation: on the column `5, zzz, a` the flip
iteration (`zzz`) leaves `minVal` as the float `5.0` (since `zzz` is not
smaller than its rendering), so the next string iteration (`a`) evaluates
`minVal.(string)` on a float64 — the type assertion fails and `analyzeColumn`
panics (`none`). -/
theorem analyzeColumn_string_assertion_panics :
    analyzeColumn [["5"], ["zzz"], ["a"]] 0 = none := by
  have hq5 : (1 * ((digitsVal ['5'] : ℕ) : ℚ) * 1) = 5 := by
    have h2 : digitsVal ['5'] = 5 := rfl
    rw [h2]; norm_num
  have h1 : analyzeStep 0 initColState ["5"]
      = some ⟨0, some (.vfloat 5), some (.vfloat 5), true, false, [5]⟩ := by
    have e : analyzeStep 0 initColState ["5"]
        = some ⟨0, some (.vfloat (1 * ((digitsVal ['5'] : ℕ) : ℚ) * 1)),
                some (.vfloat (1 * ((digitsVal ['5'] : ℕ) : ℚ) * 1)), true, false,
                [1 * ((digitsVal ['5'] : ℕ) : ℚ) * 1]⟩ := rfl
    rw [e, hq5]
  have hts : toStringComparable (Value.vfloat 5) = "0000000000005.000000" :=
    formatFloat_five
  have hmin : flipUpdateMin (some (.vfloat 5)) "zzz" = some (.vfloat 5) := by
    simp only [flipUpdateMin, hts]
    rw [if_neg (by rw [String.lt_iff_toList_lt]; decide : ¬ ("zzz" < "0000000000005.000000"))]
  have hmax : flipUpdateMax (some (.vfloat 5)) "zzz" = some (.vstr "zzz") := by
    simp only [flipUpdateMax, hts]
    rw [if_pos (by rw [String.lt_iff_toList_lt]; decide : "0000000000005.000000" < "zzz")]
  have h2 : analyzeStep 0 (⟨0, some (.vfloat 5), some (.vfloat 5), true, false, [5]⟩ : ColState) ["zzz"]
      = some ⟨0, some (.vfloat 5), some (.vstr "zzz"), false, false, []⟩ := by
    have e : analyzeStep 0 (⟨0, some (.vfloat 5), some (.vfloat 5), true, false, [5]⟩ : ColState) ["zzz"]
        = some ⟨0, flipUpdateMin (some (.vfloat 5)) "zzz",
                flipUpdateMax (some (.vfloat 5)) "zzz", false, false, []⟩ := rfl
    rw [e, hmin, hmax]
  have e1 : analyzeLoop 0 initColState [["5"], ["zzz"], ["a"]]
      = analyzeLoop 0 (⟨0, some (.vfloat 5), some (.vfloat 5), true, false, [5]⟩ : ColState)
          [["zzz"], ["a"]] := by
    show (match analyzeStep 0 initColState ["5"] with
          | none => none
          | some st' => analyzeLoop 0 st' [["zzz"], ["a"]]) = _
    rw [h1]
  have e2 : analyzeLoop 0 (⟨0, some (.vfloat 5), some (.vfloat 5), true, false, [5]⟩ : ColState)
      [["zzz"], ["a"]]
      = analyzeLoop 0 (⟨0, some (.vfloat 5), some (.vstr "zzz"), false, false, []⟩ : ColState)
          [["a"]] := by
    show (match analyzeStep 0 (⟨0, some (.vfloat 5), some (.vfloat 5), true, false, [5]⟩ : ColState) ["zzz"] with
          | none => none
          | some st' => analyzeLoop 0 st' [["a"]]) = _
    rw [h2]
  have e3 : analyzeLoop 0 (⟨0, some (.vfloat 5), some (.vstr "zzz"), false, false, []⟩ : ColState)
      [["a"]] = none := rfl
  simp only [analyzeColumn, e1, e2, e3, Option.map_none']

/-! ### Claim C10: the row-count estimator's divisor -/

/-- Claim C10: with a positive `SampleSize` and at least `SampleSize` bytes
consumed, `bytesConsumed / SampleSize ≥ 1`, so `estimateRowCount` divides
`fileSize` by a nonzero average-bytes-per-record; with fewer (nonnegative)
bytes than `SampleSize` that divisor is zero. -/
theorem estimateRowCount_divisor :
    (∀ (fileSize readerBytes : ℤ) (config : SamplingConfig),
       0 < config.sampleSize → config.sampleSize ≤ readerBytes →
       1 ≤ Int.tdiv readerBytes config.sampleSize ∧
       estimateRowCount fileSize readerBytes config
         = Int.tdiv fileSize (Int.tdiv readerBytes config.sampleSize)) ∧
    (∀ (readerBytes : ℤ) (config : SamplingConfig),
       0 ≤ readerBytes → readerBytes < config.sampleSize →
       Int.tdiv readerBytes config.sampleSize = 0) := by
  constructor
  · intro fileSize readerBytes config hpos hle
    refine ⟨?_, rfl⟩
    rw [Int.tdiv_eq_ediv (le_trans (le_of_lt hpos) hle) (le_of_lt hpos)]
    exact (Int.le_ediv_iff_mul_le hpos).mpr (by linarith)
  · intro readerBytes config hnn hlt
    rw [Int.tdiv_eq_ediv hnn (le_of_lt (lt_of_le_of_lt hnn hlt))]
    exact Int.ediv_eq_zero_of_lt hnn hlt

/-- Witness for C10 at concrete inputs (`sampleSize = 100`,
`readerBytes = 250` resp. `50`). -/
theorem estimateRowCount_divisor_witness :
    (1 ≤ Int.tdiv (250 : ℤ) (⟨100, 5, 1/2, 100⟩ : SamplingConfig).sampleSize ∧
     estimateRowCount 10000 250 ⟨100, 5, 1/2, 100⟩
       = Int.tdiv 10000 (Int.tdiv 250 (⟨100, 5, 1/2, 100⟩ : SamplingConfig).sampleSize)) ∧
    Int.tdiv (50 : ℤ) (⟨100, 5, 1/2, 100⟩ : SamplingConfig).sampleSize = 0 :=
  ⟨estimateRowCount_divisor.1 10000 250 ⟨100, 5, 1/2, 100⟩ (by decide) (by decide),
   estimateRowCount_divisor.2 50 ⟨100, 5, 1/2, 100⟩ (by decide) (by decide)⟩

/-! ### Claim C3: error policy of `sampleRecords` (corrected) -/

/-- If no loop iteration hits a seek failure, the position loop cannot
return an error. -/
theorem sampleLoop_ok_of_nonFatal :
    ∀ (outcomes : List PosOutcome) (sampleSize : ℤ) (acc : List (List String)) (bytes : ℤ),
      (∀ o ∈ outcomes, o.nonFatal = true) →
      sampleLoop sampleSize outcomes acc bytes ≠ Except.error () := by
  intro outcomes
  induction outcomes with
  | nil => intro _ _ _ _; simp [sampleLoop]
  | cons o rest ih =>
    intro sampleSize acc bytes hall
    cases o with
    | seekErr =>
      exact absurd (hall PosOutcome.seekErr (by simp)) (by simp [PosOutcome.nonFatal])
    | tellErr r =>
      exact absurd (hall (PosOutcome.tellErr r) (by simp)) (by simp [PosOutcome.nonFatal])
    | readErr =>
      simp only [sampleLoop]
      exact ih sampleSize acc bytes (fun o ho => hall o (by simp [ho]))
    | ok r b =>
      simp only [sampleLoop]
      split
      · simp
      · exact ih sampleSize _ _ (fun o ho => hall o (by simp [ho]))

/-- Claim C3 as amended: a `readFromPosition` failure at a sampling position
is swallowed — the iteration contributes nothing and the loop moves on — and
when every position's I/O either succeeds or fails only in
`readFromPosition`, `sampleRecords` returns successfully (with however many
records were collected).  (Seek failures, by contrast, abort it — see the
counterexample.) -/
theorem sampleRecords_error_policy :
    (∀ (config : SamplingConfig) (rest : List PosOutcome),
       sampleRecords config (PosOutcome.readErr :: rest) = sampleRecords config rest) ∧
    (∀ (config : SamplingConfig) (outcomes : List PosOutcome),
       (∀ o ∈ outcomes, o.nonFatal = true) →
       sampleRecords config outcomes ≠ Except.error ()) := by
  constructor
  · intro config rest; rfl
  · intro config outcomes hall
    have hne := sampleLoop_ok_of_nonFatal outcomes config.sampleSize [] 0 hall
    unfold sampleRecords
    cases hsl : sampleLoop config.sampleSize outcomes [] 0 with
    | error e =>
      cases e
      exact absurd hsl hne
    | ok v =>
      obtain ⟨allRecords, readerBytes⟩ := v
      split
      · simp_all
      · split <;> simp

/-- Counterexample to claim C3 as stated: a seek error at a sampling position
is not swallowed — `sampleRecords` fails outright. -/
theorem sampleRecords_seek_error_aborts :
    sampleRecords ⟨1000, 5, 1/2, 100⟩ [PosOutcome.seekErr] = Except.error () := rfl

/-- Witness for the amended C3: a read failure at the first position is
skipped and the call still succeeds. -/
theorem sampleRecords_error_policy_witness :
    sampleRecords ⟨2, 5, 1/2, 100⟩ [PosOutcome.readErr, PosOutcome.ok [["a"]] 10]
      ≠ Except.error () :=
  sampleRecords_error_policy.2 ⟨2, 5, 1/2, 100⟩ [PosOutcome.readErr, PosOutcome.ok [["a"]] 10]
    (by decide)

/-! ### Claim C1: small files are read exactly -/

/-- Claim C1: whenever `fileSize ≤ MaxFileSize` and `ReadTable` succeeds, the
result has `EstimatedRows = RowCount`, and `RowCount` is exactly the number
of records in the file minus the header. -/
theorem readTable_small_file_exact_counts :
    ∀ (file : List (List String)) (fileSize : ℤ) (config : SamplingConfig)
      (outcomes : List PosOutcome) (ts : TableStats),
      fileSize ≤ config.maxFileSize →
      readTable file fileSize config outcomes = some ts →
      ts.estimatedRows = ts.rowCount ∧ ts.rowCount = (file.length : ℤ) - 1 := by
  intro file fileSize config outcomes ts hsize hread
  match file with
  | [] => simp [readTable] at hread
  | header :: rest =>
    rw [readTable, if_pos hsize] at hread
    simp only [finishStats] at hread
    split at hread
    · obtain rfl := Option.some.inj hread
      refine ⟨rfl, ?_⟩
      simp [List.length_cons]
    · split at hread
      · exact absurd hread (by simp)
      · obtain rfl := Option.some.inj hread
        refine ⟨rfl, ?_⟩
        simp [List.length_cons]

/-- Witness for C1: a header-only file within the size limit. -/
theorem readTable_small_file_exact_counts_witness :
    ((⟨0, 0, 1, ["h"], [], []⟩ : TableStats).estimatedRows
       = (⟨0, 0, 1, ["h"], [], []⟩ : TableStats).rowCount ∧
     (⟨0, 0, 1, ["h"], [], []⟩ : TableStats).rowCount = ([["h"]].length : ℤ) - 1) :=
  readTable_small_file_exact_counts [["h"]] 1 ⟨1000, 5, 1/2, 100⟩ [] ⟨0, 0, 1, ["h"], [], []⟩
    (by decide) rfl

/-! ### Claims C2 and C5: the `analyzeColumn` loop invariants -/

/-- Each loop iteration adds one to the null counter exactly on null fields. -/
theorem analyzeStep_nullCount :
    ∀ (colIdx : ℕ) (st : ColState) (record : List String) (st' : ColState),
      analyzeStep colIdx st record = some st' →
      st'.nullCount = st.nullCount + (if isNullField colIdx record then 1 else 0) := by
  intro colIdx st record st' h
  simp only [analyzeStep] at h
  split at h
  · rename_i hlen
    obtain rfl := Option.some.inj h
    have hnf : isNullField colIdx record = true := by
      simp only [isNullField, decide_eq_true hlen, Bool.true_or]
    rw [hnf]
    simp
  · rename_i hlen
    split at h
    · rename_i hnull
      obtain rfl := Option.some.inj h
      have hnf : isNullField colIdx record = true := by
        simp only [isNullField, hnull, Bool.or_true]
      rw [hnf]
      simp
    · rename_i hnull
      have hnf : isNullField colIdx record = false := by
        simp only [isNullField, decide_eq_false hlen, Bool.false_or]
        simpa using hnull
      rw [hnf]
      split at h
      · split at h
        · split at h
          · obtain rfl := Option.some.inj h; simp
          · exact absurd h (by simp)
        · obtain rfl := Option.some.inj h; simp
      · split at h
        · exact absurd h (by simp)
        · split at h
          · exact absurd h (by simp)
          · obtain rfl := Option.some.inj h; simp

/-- The loop's final null counter counts exactly the null fields. -/
theorem analyzeLoop_nullCount :
    ∀ (records : List (List String)) (colIdx : ℕ) (st st' : ColState),
      analyzeLoop colIdx st records = some st' →
      st'.nullCount = st.nullCount + records.countP (fun rec => isNullField colIdx rec) := by
  intro records
  induction records with
  | nil =>
    intro colIdx st st' h
    obtain rfl := Option.some.inj h
    simp
  | cons record rest ih =>
    intro colIdx st st' h
    simp only [analyzeLoop] at h
    cases hstep : analyzeStep colIdx st record with
    | none => rw [hstep] at h; exact absurd h (by simp)
    | some st1 =>
      rw [hstep] at h
      have h1 := analyzeStep_nullCount colIdx st record st1 hstep
      have h2 := ih colIdx st1 st' h
      rw [h2, h1, List.countP_cons]
      by_cases hb : isNullField colIdx record <;> simp [hb] <;> omega

/-- Claim C5: `analyzeColumn` counts a field as null exactly when the record
is too short for the column or the trimmed field is empty/`NULL`/`null`, and
`NullPercentage` is that count over the number of records examined, times
100. -/
theorem analyzeColumn_null_semantics :
    ∀ (records : List (List String)) (colIdx : ℕ) (r : ColResult),
      analyzeColumn records colIdx = some r →
      r.nullCount = (records.countP (fun rec => isNullField colIdx rec) : ℤ) ∧
      r.nullPercentage
        = ((records.countP (fun rec => isNullField colIdx rec) : ℚ) / (records.length : ℚ)) * 100 := by
  intro records colIdx r h
  simp only [analyzeColumn, Option.map_eq_some'] at h
  obtain ⟨st, hloop, rfl⟩ := h
  have hc := analyzeLoop_nullCount records colIdx initColState st hloop
  simp only [initColState] at hc
  rw [Nat.zero_add] at hc
  exact ⟨by simp [hc], by simp [hc]⟩

/-- Witness for C5 on a column with one ragged row, one `NULL` token, and two
proper values. -/
theorem analyzeColumn_null_semantics_witness :
    (analyzeColumn [["a"], [], ["  NULL "], ["5"]] 0).map ColResult.nullCount
      = some (([["a"], [], ["  NULL "], ["5"]].countP (fun rec => isNullField 0 rec) : ℕ) : ℤ) := by
  cases heq : analyzeColumn [["a"], [], ["  NULL "], ["5"]] 0 with
  | none =>
    have hs : (analyzeColumn [["a"], [], ["  NULL "], ["5"]] 0).isSome = true := rfl
    rw [heq] at hs
    exact absurd hs (by decide)
  | some r =>
    have hr := (analyzeColumn_null_semantics [["a"], [], ["  NULL "], ["5"]] 0 r heq).1
    simp [hr]

/-- Once a column has left the numeric state, no later record can bring it
back. -/
theorem analyzeStep_isNumeric_mono :
    ∀ (colIdx : ℕ) (st : ColState) (record : List String) (st' : ColState),
      analyzeStep colIdx st record = some st' →
      st.isNumeric = false → st'.isNumeric = false := by
  intro colIdx st record st' h hfalse
  simp only [analyzeStep] at h
  split at h
  · obtain rfl := Option.some.inj h; simpa using hfalse
  · split at h
    · obtain rfl := Option.some.inj h; simpa using hfalse
    · split at h
      · rename_i hnum
        rw [hfalse] at hnum
        exact absurd hnum (by simp)
      · split at h
        · exact absurd h (by simp)
        · split at h
          · exact absurd h (by simp)
          · obtain rfl := Option.some.inj h; simpa using hfalse

/-- A record with a non-null unparseable value leaves the loop state
non-numeric. -/
theorem analyzeStep_flips :
    ∀ (colIdx : ℕ) (st : ColState) (record : List String) (st' : ColState),
      analyzeStep colIdx st record = some st' →
      failsNumericParse colIdx record →
      st'.isNumeric = false := by
  intro colIdx st record st' h hf
  obtain ⟨hlen, hnull, hparse⟩ := hf
  by_cases hnum : st.isNumeric = true
  · rw [analyzeStep, if_neg (by omega : ¬ record.length ≤ colIdx)] at h
    simp only at h
    rw [if_neg (by rw [hnull]; exact Bool.false_ne_true), if_pos hnum, hparse] at h
    obtain rfl := Option.some.inj h
    rfl
  · exact analyzeStep_isNumeric_mono colIdx st record st' h (by simpa using hnum)

/-- If the state is already non-numeric, or some record in the remainder of
the column fails the parse, the loop ends non-numeric. -/
theorem analyzeLoop_string_of_fail :
    ∀ (records : List (List String)) (colIdx : ℕ) (st st' : ColState),
      analyzeLoop colIdx st records = some st' →
      (st.isNumeric = false ∨ ∃ rec ∈ records, failsNumericParse colIdx rec) →
      st'.isNumeric = false := by
  intro records
  induction records with
  | nil =>
    intro colIdx st st' h hor
    obtain rfl := Option.some.inj h
    rcases hor with hf | ⟨rec, hmem, _⟩
    · exact hf
    · exact absurd hmem (by simp)
  | cons record rest ih =>
    intro colIdx st st' h hor
    simp only [analyzeLoop] at h
    cases hstep : analyzeStep colIdx st record with
    | none => rw [hstep] at h; exact absurd h (by simp)
    | some st1 =>
      rw [hstep] at h
      rcases hor with hf | ⟨rec, hmem, hfail⟩
      · exact ih colIdx st1 st' h (Or.inl (analyzeStep_isNumeric_mono colIdx st record st1 hstep hf))
      · rcases List.mem_cons.mp hmem with rfl | hmem'
        · exact ih colIdx st1 st' h (Or.inl (analyzeStep_flips colIdx st rec st1 hstep hfail))
        · exact ih colIdx st1 st' h (Or.inr ⟨rec, hmem', hfail⟩)

/-- Claim C2: (1) once the loop state is non-numeric no step restores it, and
(2) whenever some record of the column holds a non-null value that fails the
float parse, any successful analysis records the column type `string`. -/
theorem analyzeColumn_type_monotone :
    (∀ (colIdx : ℕ) (st : ColState) (record : List String) (st' : ColState),
       analyzeStep colIdx st record = some st' →
       st.isNumeric = false → st'.isNumeric = false) ∧
    (∀ (records : List (List String)) (colIdx : ℕ) (r : ColResult),
       (∃ rec ∈ records, failsNumericParse colIdx rec) →
       analyzeColumn records colIdx = some r →
       r.columnType = "string") := by
  constructor
  · exact analyzeStep_isNumeric_mono
  · intro records colIdx r hex h
    simp only [analyzeColumn, Option.map_eq_some'] at h
    obtain ⟨st, hloop, rfl⟩ := h
    have hfin : st.isNumeric = false :=
      analyzeLoop_string_of_fail records colIdx initColState st hloop (Or.inr hex)
    simp [hfin]

/-- Witness for C2: a column whose first value fails the parse and whose
second is a perfectly numeric `7` still comes out as `string`. -/
theorem analyzeColumn_type_monotone_witness :
    (analyzeColumn [["x"], ["7"]] 0).map ColResult.columnType = some "string" := by
  cases heq : analyzeColumn [["x"], ["7"]] 0 with
  | none =>
    have hs : (analyzeColumn [["x"], ["7"]] 0).isSome = true := rfl
    rw [heq] at hs
    exact absurd hs (by decide)
  | some r =>
    have hr := analyzeColumn_type_monotone.2 [["x"], ["7"]] 0 r
      ⟨["x"], by decide, by decide⟩ heq
    simp [hr]

/-! ### Claim C6: population statistics of `calculateAggregates` -/

/-- Folding `acc + f v` over a list sums the mapped values. -/
theorem foldl_add_eq (f : ℚ → ℚ) :
    ∀ (l : List ℚ) (a : ℚ), l.foldl (fun acc v => acc + f v) a = a + (l.map f).sum := by
  intro l
  induction l with
  | nil => intro a; simp
  | cons x xs ih => intro a; simp only [List.foldl_cons, List.map_cons, List.sum_cons, ih]; ring

/-- The `sum` accumulator of `calculateAggregates` is the list sum. -/
theorem foldl_add_sum (l : List ℚ) : l.foldl (· + ·) 0 = l.sum := by
  have h := foldl_add_eq (fun v => v) l 0
  simpa using h

/-- Percentile values of `[1,2,3,4,5]` at the six fixed ranks. -/
theorem calculatePercentile_scenario :
    calculatePercentile [1, 2, 3, 4, 5] 25 = 2 ∧
    calculatePercentile [1, 2, 3, 4, 5] 50 = 3 ∧
    calculatePercentile [1, 2, 3, 4, 5] 75 = 4 ∧
    calculatePercentile [1, 2, 3, 4, 5] 90 = 23 / 5 ∧
    calculatePercentile [1, 2, 3, 4, 5] 95 = 24 / 5 ∧
    calculatePercentile [1, 2, 3, 4, 5] 99 = 124 / 25 := by
  refine ⟨?_, ?_, ?_, ?_, ?_, ?_⟩
  · norm_num [calculatePercentile, List.getD]
  · norm_num [calculatePercentile, List.getD]
    rfl
  · norm_num [calculatePercentile, List.getD]
    rfl
  · have hc : (⌈(18 : ℚ) / 5⌉ : ℤ) = 4 := by norm_num [Int.ceil_eq_iff]
    norm_num [calculatePercentile, List.getD, hc]
    rw [(show ([1, 2, 3, 4, 5] : List ℚ)[Int.toNat 3] = 4 from rfl),
        (show ([1, 2, 3, 4, 5] : List ℚ)[Int.toNat 4] = 5 from rfl)]
    norm_num
  · have hc : (⌈(19 : ℚ) / 5⌉ : ℤ) = 4 := by norm_num [Int.ceil_eq_iff]
    norm_num [calculatePercentile, List.getD, hc]
    rw [(show ([1, 2, 3, 4, 5] : List ℚ)[Int.toNat 3] = 4 from rfl),
        (show ([1, 2, 3, 4, 5] : List ℚ)[Int.toNat 4] = 5 from rfl)]
    norm_num
  · have hc : (⌈(99 : ℚ) / 25⌉ : ℤ) = 4 := by norm_num [Int.ceil_eq_iff]
    norm_num [calculatePercentile, List.getD, hc]
    rw [(show ([1, 2, 3, 4, 5] : List ℚ)[Int.toNat 3] = 4 from rfl),
        (show ([1, 2, 3, 4, 5] : List ℚ)[Int.toNat 4] = 5 from rfl)]
    norm_num

/-- Claim C6: for non-empty input `calculateAggregates` computes
`mean = sum/count`, the population variance `Σ(x-mean)²/count`, and
`stdDev = √variance`; on `[1,2,3,4,5]` this gives mean `3`, variance `2`,
standard deviation `√2`, and percentiles `2`, `4` and `4.6` at ranks 25, 75
and 90. -/
theorem calculateAggregates_population_stats :
    (∀ values : List ℚ, values ≠ [] →
       (calculateAggregates values).mean = values.sum / (values.length : ℚ) ∧
       (calculateAggregates values).variance
         = ((values.map (fun x => (x - values.sum / (values.length : ℚ)) ^ 2)).sum)
             / (values.length : ℚ) ∧
       stdDevOf values = Real.sqrt (((calculateAggregates values).variance : ℚ) : ℝ)) ∧
    ((calculateAggregates [1, 2, 3, 4, 5]).mean = 3 ∧
     (calculateAggregates [1, 2, 3, 4, 5]).variance = 2 ∧
     stdDevOf [1, 2, 3, 4, 5] = Real.sqrt 2 ∧
     lookupD (calculateAggregates [1, 2, 3, 4, 5]).percentiles 25 0 = 2 ∧
     lookupD (calculateAggregates [1, 2, 3, 4, 5]).percentiles 75 0 = 4 ∧
     lookupD (calculateAggregates [1, 2, 3, 4, 5]).percentiles 90 0 = 23 / 5) := by
  have hgen : ∀ values : List ℚ, values ≠ [] →
      (calculateAggregates values).mean = values.sum / (values.length : ℚ) ∧
      (calculateAggregates values).variance
        = ((values.map (fun x => (x - values.sum / (values.length : ℚ)) ^ 2)).sum)
            / (values.length : ℚ) ∧
      stdDevOf values = Real.sqrt (((calculateAggregates values).variance : ℚ) : ℝ) := by
    intro values hne
    have hlen : values.length ≠ 0 := by simpa [List.length_eq_zero] using hne
    refine ⟨?_, ?_, rfl⟩
    · simp only [calculateAggregates, if_neg hlen, foldl_add_sum]
    · simp only [calculateAggregates, if_neg hlen, foldl_add_sum,
        foldl_add_eq (fun v => (v - values.sum / (values.length : ℚ))
          * (v - values.sum / (values.length : ℚ))) values 0, zero_add]
      have hmap : (fun v : ℚ => (v - values.sum / (values.length : ℚ))
              * (v - values.sum / (values.length : ℚ)))
          = fun x : ℚ => (x - values.sum / (values.length : ℚ)) ^ 2 := by
        funext x; ring
      rw [hmap]
  have hsort : List.insertionSort (· ≤ ·) [1, 2, 3, 4, 5] = ([1, 2, 3, 4, 5] : List ℚ) := by
    norm_num [List.insertionSort, List.orderedInsert]
  have hps : (calculateAggregates [1, 2, 3, 4, 5]).percentiles
      = [(25, (2 : ℚ)), (50, 3), (75, 4), (90, 23 / 5), (95, 24 / 5), (99, 124 / 25)] := by
    obtain ⟨h25, h50, h75, h90, h95, h99⟩ := calculatePercentile_scenario
    simp only [calculateAggregates,
      if_neg (by norm_num : ¬ ([1, 2, 3, 4, 5] : List ℚ).length = 0),
      percentilePoints, List.map_cons, List.map_nil, hsort, h25, h50, h75, h90, h95, h99]
  refine ⟨hgen, ?_, ?_, ?_, ?_, ?_, ?_⟩
  · have h := (hgen [1, 2, 3, 4, 5] (by simp)).1
    rw [h]; norm_num
  · have h := (hgen [1, 2, 3, 4, 5] (by simp)).2.1
    rw [h]; norm_num
  · have h := (hgen [1, 2, 3, 4, 5] (by simp)).2.1
    have hv : (calculateAggregates [1, 2, 3, 4, 5]).variance = 2 := by
      rw [h]; norm_num
    rw [stdDevOf, hv]
    norm_num
  · rw [hps]; rfl
  · rw [hps]; rfl
  · rw [hps]; rfl

/-- Witness for C6 applying the universal part at `[1,2,3,4,5]`. -/
theorem calculateAggregates_population_stats_witness :
    (calculateAggregates [1, 2, 3, 4, 5]).mean
      = ([1, 2, 3, 4, 5] : List ℚ).sum / ((([1, 2, 3, 4, 5] : List ℚ).length : ℕ) : ℚ) :=
  (calculateAggregates_population_stats.1 [1, 2, 3, 4, 5] (by simp)).1

/-! ### Claim C7: percentile monotonicity -/

/-- `calculatePercentile` is the linear interpolation `interpAt` at index
`rank/100 * (n-1)`. -/
theorem calculatePercentile_eq_interpAt (s : List ℚ) (p : ℕ) (hs : s.length ≠ 0) :
    calculatePercentile s p = interpAt s ((p : ℚ) / 100 * ((s.length : ℚ) - 1)) := by
  simp only [calculatePercentile, if_neg hs]
  set t : ℚ := (p : ℚ) / 100 * ((s.length : ℚ) - 1) with ht
  by_cases hint : t = (⌊t⌋ : ℚ)
  · rw [if_pos hint, interpAt]
    have hfr : t - (⌊t⌋ : ℚ) = 0 := by rw [← hint]; ring
    have hceil : ⌈t⌉ = ⌊t⌋ := by rw [hint, Int.ceil_intCast, Int.floor_intCast]
    rw [hfr, hceil]
    ring
  · rw [if_neg hint, interpAt]

/-- In a sorted list, `getD` is monotone in the index. -/
theorem getD_mono_of_sorted (s : List ℚ) (hs : s.Sorted (· ≤ ·)) {i j : ℕ}
    (hij : i ≤ j) (hj : j < s.length) : s.getD i 0 ≤ s.getD j 0 := by
  have hi : i < s.length := lt_of_le_of_lt hij hj
  rw [List.getD_eq_get s 0 hi, List.getD_eq_get s 0 hj]
  exact hs.rel_get_of_le (by simpa using hij)

/-- Monotonicity of the interpolation over a sorted list on the index range
`[0, n-1]`. -/
theorem interpAt_mono (s : List ℚ) (hs : s.Sorted (· ≤ ·)) (t u : ℚ)
    (h0 : 0 ≤ t) (htu : t ≤ u) (hun : u ≤ (s.length : ℚ) - 1) :
    interpAt s t ≤ interpAt s u := by
  have hlen1 : (1 : ℚ) ≤ (s.length : ℚ) := by linarith
  have hnlen : 1 ≤ s.length := by exact_mod_cast hlen1
  have hft : (0 : ℤ) ≤ ⌊t⌋ := Int.floor_nonneg.mpr h0
  have hfu : (0 : ℤ) ≤ ⌊u⌋ := Int.floor_nonneg.mpr (le_trans h0 htu)
  have hcu_le : ⌈u⌉ ≤ (s.length : ℤ) - 1 := by
    rw [Int.ceil_le]; push_cast; exact hun
  have hct_le : ⌈t⌉ ≤ (s.length : ℤ) - 1 := by
    rw [Int.ceil_le]; push_cast; linarith
  have hflc_t : ⌊t⌋ ≤ ⌈t⌉ := Int.floor_le_ceil t
  have hflc_u : ⌊u⌋ ≤ ⌈u⌉ := Int.floor_le_ceil u
  have hf_mono : ⌊t⌋ ≤ ⌊u⌋ := Int.floor_mono htu
  have hc_mono : ⌈t⌉ ≤ ⌈u⌉ := Int.ceil_mono htu
  have hfr_t0 : 0 ≤ t - (⌊t⌋ : ℚ) := by linarith [Int.floor_le t]
  have hfr_t1 : t - (⌊t⌋ : ℚ) < 1 := by linarith [Int.lt_floor_add_one t]
  have hfr_u0 : 0 ≤ u - (⌊u⌋ : ℚ) := by linarith [Int.floor_le u]
  have hlen_int : (1 : ℤ) ≤ (s.length : ℤ) := by exact_mod_cast hnlen
  by_cases hc : ⌈t⌉ ≤ ⌊u⌋
  · have hchk : (⌈t⌉).toNat < s.length := by omega
    have hfk : (⌊u⌋).toNat < s.length := by omega
    have hck : (⌈u⌉).toNat < s.length := by omega
    have hab : s.getD (⌊t⌋).toNat 0 ≤ s.getD (⌈t⌉).toNat 0 :=
      getD_mono_of_sorted s hs (by omega) hchk
    have hmid : s.getD (⌈t⌉).toNat 0 ≤ s.getD (⌊u⌋).toNat 0 :=
      getD_mono_of_sorted s hs (by omega) hfk
    have hcd : s.getD (⌊u⌋).toNat 0 ≤ s.getD (⌈u⌉).toNat 0 :=
      getD_mono_of_sorted s hs (by omega) hck
    have h1 : interpAt s t ≤ s.getD (⌈t⌉).toNat 0 := by
      rw [interpAt]
      nlinarith [mul_nonneg (sub_nonneg.mpr hab) hfr_t0]
    have h2 : s.getD (⌊u⌋).toNat 0 ≤ interpAt s u := by
      rw [interpAt]
      nlinarith [mul_nonneg (sub_nonneg.mpr hcd) hfr_u0]
    linarith
  · push_neg at hc
    have hcfl_t : ⌈t⌉ ≤ ⌊t⌋ + 1 := Int.ceil_le_floor_add_one t
    have hcfl_u : ⌈u⌉ ≤ ⌊u⌋ + 1 := Int.ceil_le_floor_add_one u
    have huq : ⌊u⌋ = ⌊t⌋ := by omega
    have hct : ⌈t⌉ = ⌊t⌋ + 1 := by omega
    have hcu : ⌈u⌉ = ⌊t⌋ + 1 := by omega
    have hbk : ((⌊t⌋ : ℤ) + 1).toNat < s.length := by omega
    have hab : s.getD (⌊t⌋).toNat 0 ≤ s.getD ((⌊t⌋ + 1)).toNat 0 :=
      getD_mono_of_sorted s hs (by omega) hbk
    rw [interpAt, interpAt, huq, hct, hcu]
    have hfr_le : t - (⌊t⌋ : ℚ) ≤ u - (⌊t⌋ : ℚ) := by linarith
    nlinarith [mul_nonneg (sub_nonneg.mpr hab) (sub_nonneg.mpr hfr_le)]

/-- `calculatePercentile` is monotone in the rank on a sorted list. -/
theorem calculatePercentile_mono (s : List ℚ) (hs : s.Sorted (· ≤ ·)) (hne : s.length ≠ 0)
    (p q : ℕ) (hpq : p ≤ q) (hq : q ≤ 100) :
    calculatePercentile s p ≤ calculatePercentile s q := by
  rw [calculatePercentile_eq_interpAt s p hne, calculatePercentile_eq_interpAt s q hne]
  have hlen1 : (1 : ℚ) ≤ (s.length : ℚ) := by
    have h1 : 1 ≤ s.length := Nat.one_le_iff_ne_zero.mpr hne
    exact_mod_cast h1
  have hnn : (0 : ℚ) ≤ (s.length : ℚ) - 1 := by linarith
  apply interpAt_mono s hs
  · exact mul_nonneg (by positivity) hnn
  · apply mul_le_mul_of_nonneg_right _ hnn
    exact (div_le_div_right (by norm_num : (0 : ℚ) < 100)).mpr (by exact_mod_cast hpq)
  · have hq1 : (q : ℚ) / 100 ≤ 1 := by
      rw [div_le_one (by norm_num : (0 : ℚ) < 100)]
      exact_mod_cast hq
    exact mul_le_of_le_one_left hnn hq1

/-- Claim C7: for every non-empty numeric collection the percentiles of
`calculateAggregates` are monotone across the fixed ranks
25 ≤ 50 ≤ 75 ≤ 90 ≤ 95 ≤ 99. -/
theorem percentiles_monotone :
    ∀ values : List ℚ, values ≠ [] →
      lookupD (calculateAggregates values).percentiles 25 0
          ≤ lookupD (calculateAggregates values).percentiles 50 0 ∧
      lookupD (calculateAggregates values).percentiles 50 0
          ≤ lookupD (calculateAggregates values).percentiles 75 0 ∧
      lookupD (calculateAggregates values).percentiles 75 0
          ≤ lookupD (calculateAggregates values).percentiles 90 0 ∧
      lookupD (calculateAggregates values).percentiles 90 0
          ≤ lookupD (calculateAggregates values).percentiles 95 0 ∧
      lookupD (calculateAggregates values).percentiles 95 0
          ≤ lookupD (calculateAggregates values).percentiles 99 0 := by
  intro values hne
  have hlen : values.length ≠ 0 := by simpa [List.length_eq_zero] using hne
  have hps : (calculateAggregates values).percentiles
      = percentilePoints.map fun p =>
          (p, calculatePercentile (List.insertionSort (· ≤ ·) values) p) := by
    simp only [calculateAggregates, if_neg hlen]
  have hsorted : (List.insertionSort (· ≤ ·) values).Sorted (· ≤ ·) :=
    List.sorted_insertionSort (· ≤ ·) values
  have hslen : (List.insertionSort (· ≤ ·) values).length ≠ 0 := by
    rw [(List.perm_insertionSort (· ≤ ·) values).length_eq]
    exact hlen
  rw [hps]
  simp only [percentilePoints, List.map_cons, List.map_nil]
  refine ⟨?_, ?_, ?_, ?_, ?_⟩ <;>
    exact calculatePercentile_mono (List.insertionSort (· ≤ ·) values) hsorted hslen _ _
      (by norm_num) (by norm_num)

/-- Witness for C7 on the collection `[1,2,3,4,5]`. -/
theorem percentiles_monotone_witness :
    lookupD (calculateAggregates [(1 : ℚ), 2, 3, 4, 5]).percentiles 25 0
        ≤ lookupD (calculateAggregates [(1 : ℚ), 2, 3, 4, 5]).percentiles 50 0 ∧
    lookupD (calculateAggregates [(1 : ℚ), 2, 3, 4, 5]).percentiles 50 0
        ≤ lookupD (calculateAggregates [(1 : ℚ), 2, 3, 4, 5]).percentiles 75 0 ∧
    lookupD (calculateAggregates [(1 : ℚ), 2, 3, 4, 5]).percentiles 75 0
        ≤ lookupD (calculateAggregates [(1 : ℚ), 2, 3, 4, 5]).percentiles 90 0 ∧
    lookupD (calculateAggregates [(1 : ℚ), 2, 3, 4, 5]).percentiles 90 0
        ≤ lookupD (calculateAggregates [(1 : ℚ), 2, 3, 4, 5]).percentiles 95 0 ∧
    lookupD (calculateAggregates [(1 : ℚ), 2, 3, 4, 5]).percentiles 95 0
        ≤ lookupD (calculateAggregates [(1 : ℚ), 2, 3, 4, 5]).percentiles 99 0 :=
  percentiles_monotone [1, 2, 3, 4, 5] (by simp)

/-! ### Claim C4: rendering of numeric bounds at the numeric→string flip -/

/-- Padding preserves the width when the input already fits. -/
theorem padZeros_length (w : ℕ) (cs : List Char) (h : cs.length ≤ w) :
    (padZeros w cs).length = w := by
  simp [padZeros]
  omega

/-- Padding with zeros keeps every character a digit. -/
theorem padZeros_all_digits (w : ℕ) (cs : List Char)
    (h : ∀ c ∈ cs, c.isDigit = true) : ∀ c ∈ padZeros w cs, c.isDigit = true := by
  intro c hc
  rcases List.mem_append.mp hc with hrep | hmem
  · rw [List.eq_of_mem_replicate hrep]; decide
  · exact h c hmem

/-- `digitChar10` produces digit characters. -/
theorem digitChar10_isDigit (n : ℕ) (h : n < 10) : (digitChar10 n).isDigit = true := by
  interval_cases n <;> decide

/-- Every character produced by `natDigitsAux` is a digit. -/
theorem natDigitsAux_digits :
    ∀ (fuel n : ℕ), ∀ c ∈ natDigitsAux fuel n, c.isDigit = true := by
  intro fuel
  induction fuel with
  | zero =>
    intro n c hc
    simp only [natDigitsAux, List.mem_singleton] at hc
    rw [hc]
    exact digitChar10_isDigit _ (Nat.mod_lt _ (by norm_num))
  | succ fuel ih =>
    intro n c hc
    simp only [natDigitsAux] at hc
    split at hc
    · rw [List.mem_singleton] at hc
      rw [hc]
      exact digitChar10_isDigit _ (by assumption)
    · rcases List.mem_append.mp hc with hmem | hmem
      · exact ih _ c hmem
      · rw [List.mem_singleton] at hmem
        rw [hmem]
        exact digitChar10_isDigit _ (Nat.mod_lt _ (by norm_num))

/-- A number below `10^k` prints in at most `k` digits. -/
theorem natDigitsAux_length :
    ∀ (fuel n k : ℕ), n ≤ fuel → 1 ≤ k → n < 10 ^ k →
      (natDigitsAux fuel n).length ≤ k := by
  intro fuel
  induction fuel with
  | zero =>
    intro n k _ hk _
    simpa [natDigitsAux] using hk
  | succ fuel ih =>
    intro n k hnf hk hnk
    simp only [natDigitsAux]
    split
    · simpa using hk
    · rename_i h10
      push_neg at h10
      have hk2 : 2 ≤ k := by
        by_contra hcon
        have hk1 : k = 1 := by omega
        rw [hk1] at hnk
        simp at hnk
        omega
      have hp : 10 ^ k = 10 ^ (k - 1) * 10 := by
        conv_lhs => rw [show k = (k - 1) + 1 by omega]
        rw [pow_succ]
      have hdiv : n / 10 < 10 ^ (k - 1) := by
        rw [Nat.div_lt_iff_lt_mul (by norm_num : 0 < 10)]
        omega
      have hfuel : n / 10 ≤ fuel := by
        have := Nat.div_lt_self (show 0 < n by omega) (show 1 < 10 by norm_num)
        omega
      have := ih (n / 10) (k - 1) hfuel (by omega) hdiv
      simp only [List.length_append, List.length_singleton]
      omega

/-- Digit-count bound for `natDigits`. -/
theorem natDigits_length (n k : ℕ) (h1 : 1 ≤ k) (h : n < 10 ^ k) :
    (natDigits n).length ≤ k :=
  natDigitsAux_length n n k le_rfl h1 h

/-- All characters of `natDigits` are digits. -/
theorem natDigits_digits (n : ℕ) : ∀ c ∈ natDigits n, c.isDigit = true :=
  natDigitsAux_digits n n

/-- Decomposition of the `%020.6f` rendering of a nonnegative bound below
`10^13 - 1`: thirteen leading digit characters (zero-padded), a decimal
point, and six fraction digits. -/
theorem formatFloat_decomp (q : ℚ) (h0 : 0 ≤ q) (hb : q < 10 ^ 13 - 1) :
    ∃ Z F : List Char,
      (formatFloat20x6 q).data = Z ++ '.' :: F ∧ Z.length = 13 ∧ F.length = 6 ∧
      (∀ c ∈ Z, c.isDigit = true) ∧ (∀ c ∈ F, c.isDigit = true) := by
  have hneg : ¬ (q < 0) := not_lt.mpr h0
  have hq19 : q * 1000000 + 1 / 2 < ((10 : ℚ) ^ 19) := by
    have hm : q * 1000000 < ((10 : ℚ) ^ 13 - 1) * 1000000 :=
      mul_lt_mul_of_pos_right hb (by norm_num)
    nlinarith
  have hfl : ⌊q * 1000000 + 1 / 2⌋ < (10 : ℤ) ^ 19 := by
    apply Int.floor_lt.mpr
    push_cast
    exact hq19
  have hfl19 : ((10 : ℤ) ^ 19) = ((10 ^ 19 : ℕ) : ℤ) := by norm_num
  have hnbound : (⌊q * 1000000 + 1 / 2⌋).toNat < 10 ^ 19 := by omega
  have hip : (⌊q * 1000000 + 1 / 2⌋).toNat / 1000000 < 10 ^ 13 := by
    rw [Nat.div_lt_iff_lt_mul (by norm_num : 0 < 1000000)]
    exact lt_of_lt_of_le hnbound (by norm_num)
  have hfr : (⌊q * 1000000 + 1 / 2⌋).toNat % 1000000 < 1000000 :=
    Nat.mod_lt _ (by norm_num)
  have hipd : (natDigits ((⌊q * 1000000 + 1 / 2⌋).toNat / 1000000)).length ≤ 13 :=
    natDigits_length _ 13 (by norm_num) hip
  have hfrd : (natDigits ((⌊q * 1000000 + 1 / 2⌋).toNat % 1000000)).length ≤ 6 :=
    natDigits_length _ 6 (by norm_num) (by simpa using hfr)
  have hF0len : (padZeros 6 (natDigits ((⌊q * 1000000 + 1 / 2⌋).toNat % 1000000))).length = 6 :=
    padZeros_length 6 _ hfrd
  refine ⟨List.replicate
      (20 - (natDigits ((⌊q * 1000000 + 1 / 2⌋).toNat / 1000000) ++
        '.' :: padZeros 6 (natDigits ((⌊q * 1000000 + 1 / 2⌋).toNat % 1000000))).length) '0'
      ++ natDigits ((⌊q * 1000000 + 1 / 2⌋).toNat / 1000000),
    padZeros 6 (natDigits ((⌊q * 1000000 + 1 / 2⌋).toNat % 1000000)),
    ?_, ?_, hF0len, ?_, padZeros_all_digits 6 _ (natDigits_digits _)⟩
  · simp only [formatFloat20x6, if_neg hneg]
    show padZeros 20 _ = _
    rw [padZeros, List.append_assoc]
  · simp only [List.length_append, List.length_replicate, List.length_cons, hF0len]
    omega
  · intro c hc
    rcases List.mem_append.mp hc with hrep | hmem
    · rw [List.eq_of_mem_replicate hrep]; decide
    · exact natDigits_digits _ c hmem

/-- Claim C4 as amended: (1) at the iteration where the column flips to
non-numeric, the stored min/max bounds are compared against the value through
`toStringComparable`; (2) a nonnegative numeric bound below `10^13 - 1` is
rendered as a zero-padded decimal string of total width 20 — thirteen integer
digits, the decimal point, and six fraction digits (Go's `%020.6f`), not
twenty integer digits. -/
theorem numeric_bound_rendering :
    (∀ (colIdx : ℕ) (st : ColState) (record : List String) (b b' : Value),
       st.isNumeric = true →
       st.minVal = some b → st.maxVal = some b' →
       colIdx < record.length →
       isNullValue (trimSpace (record.getD colIdx "")) = false →
       parseFloat (trimSpace (record.getD colIdx "")) = none →
       analyzeStep colIdx st record = some
         { st with
           isNumeric := false, isFloat := false, numericValues := [],
           minVal := if trimSpace (record.getD colIdx "") < toStringComparable b
                     then some (.vstr (trimSpace (record.getD colIdx ""))) else some b,
           maxVal := if toStringComparable b' < trimSpace (record.getD colIdx "")
                     then some (.vstr (trimSpace (record.getD colIdx ""))) else some b' }) ∧
    (∀ q : ℚ, 0 ≤ q → q < 10 ^ 13 - 1 →
       (toStringComparable (Value.vfloat q)).data.length = 20 ∧
       ((toStringComparable (Value.vfloat q)).data.take 13).all Char.isDigit = true ∧
       (toStringComparable (Value.vfloat q)).data.drop 13
         = '.' :: (toStringComparable (Value.vfloat q)).data.drop 14 ∧
       ((toStringComparable (Value.vfloat q)).data.drop 14).all Char.isDigit = true ∧
       ((toStringComparable (Value.vfloat q)).data.drop 14).length = 6) := by
  constructor
  · intro colIdx st record b b' hnum hminb hmaxb hlen hnull hparse
    rw [analyzeStep, if_neg (by omega : ¬ record.length ≤ colIdx)]
    simp only
    rw [if_neg (by rw [hnull]; exact Bool.false_ne_true), if_pos hnum, hparse]
    simp only [hminb, hmaxb, flipUpdateMin, flipUpdateMax]
  · intro q h0 hb
    obtain ⟨Z, F, hdata, hZlen, hFlen, hZdig, hFdig⟩ := formatFloat_decomp q h0 hb
    have hdata' : (toStringComparable (Value.vfloat q)).data = Z ++ '.' :: F := hdata
    have hd13 : (toStringComparable (Value.vfloat q)).data.drop 13 = '.' :: F := by
      rw [hdata', show (13 : ℕ) = Z.length from hZlen.symm]
      exact List.drop_left Z ('.' :: F)
    have hd14 : (toStringComparable (Value.vfloat q)).data.drop 14 = F := by
      rw [hdata', show Z ++ '.' :: F = (Z ++ ['.']) ++ F by simp,
        show (14 : ℕ) = (Z ++ ['.']).length by simp [hZlen]]
      exact List.drop_left (Z ++ ['.']) F
    have ht13 : (toStringComparable (Value.vfloat q)).data.take 13 = Z := by
      rw [hdata', show (13 : ℕ) = Z.length from hZlen.symm]
      exact List.take_left Z ('.' :: F)
    refine ⟨?_, ?_, ?_, ?_, ?_⟩
    · simp [hdata', hZlen, hFlen]
    · rw [ht13]
      exact List.all_eq_true.mpr hZdig
    · rw [hd13, hd14]
    · rw [hd14]
      exact List.all_eq_true.mpr hFdig
    · rw [hd14, hFlen]

/-- Counterexample to C4 as stated: the rendering of the numeric bound `5.0`
is the 20-character string `0000000000005.000000` with thirteen integer
digits; a fixed-width string with twenty integer digits and six fraction
digits would have 27 characters. -/
theorem toStringComparable_not_twenty_int_digits :
    toStringComparable (Value.vfloat 5) = "0000000000005.000000" ∧
    ("0000000000005.000000" : String).length = 20 ∧
    ¬ (("0000000000005.000000" : String).length = 27) :=
  ⟨formatFloat_five, by decide, by decide⟩

/-- Witness for the amended C4: the flip comparison and the rendering shape at
the concrete state `min = max = 5.0` meeting the value `zzz`, and the format
facts at the bound `5`. -/
theorem numeric_bound_rendering_witness :
    (analyzeStep 0 (⟨0, some (.vfloat 5), some (.vfloat 5), true, false, [5]⟩ : ColState) ["zzz"]
       = some { (⟨0, some (.vfloat 5), some (.vfloat 5), true, false, [5]⟩ : ColState) with
                isNumeric := false, isFloat := false, numericValues := [],
                minVal := if trimSpace (["zzz"].getD 0 "") < toStringComparable (Value.vfloat 5)
                          then some (.vstr (trimSpace (["zzz"].getD 0 ""))) else some (Value.vfloat 5),
                maxVal := if toStringComparable (Value.vfloat 5) < trimSpace (["zzz"].getD 0 "")
                          then some (.vstr (trimSpace (["zzz"].getD 0 ""))) else some (Value.vfloat 5) }) ∧
    ((toStringComparable (Value.vfloat 5)).data.length = 20 ∧
     ((toStringComparable (Value.vfloat 5)).data.take 13).all Char.isDigit = true ∧
     (toStringComparable (Value.vfloat 5)).data.drop 13
       = '.' :: (toStringComparable (Value.vfloat 5)).data.drop 14 ∧
     ((toStringComparable (Value.vfloat 5)).data.drop 14).all Char.isDigit = true ∧
     ((toStringComparable (Value.vfloat 5)).data.drop 14).length = 6) :=
  ⟨numeric_bound_rendering.1 0 ⟨0, some (.vfloat 5), some (.vfloat 5), true, false, [5]⟩
      ["zzz"] (.vfloat 5) (.vfloat 5) rfl rfl rfl (by decide) rfl rfl,
   numeric_bound_rendering.2 5 (by norm_num) (by norm_num)⟩

end GoTableStats
